import Mathlib

/-!
Verification development for the `map_to_range` library (`src/lib.rs`).

The library maps a numeric value linearly from a source interval to a target
interval.  Every supported numeric representation implements the trait
`MapRange`, whose two methods are:

* `map_range_uncasted` — the checked-arithmetic mapper, operating in the
  value's own representation via the `CheckedNumberArithmetics` trait;
* `map_range` — the float-upcast mapper, which casts all operands to `f64`
  via `CheckedNumberCastsToFloat`, delegates to `f64`'s
  `map_range_uncasted`, and casts the result back.

Modelling choices (a shallow embedding):

* IEEE-754 doubles are modelled by `F64`: an exact rational together with
  the special values `inf`, `neginf` and `nan`.  Arithmetic is exact
  rational arithmetic, except that a finite result of magnitude greater
  than `f64::MAX` overflows to the appropriate infinity, as IEEE-754
  arithmetic does far past the overflow threshold.  Rounding of finite
  results to 53-bit precision is not modelled, and `-0.0` is conflated
  with `0.0` (IEEE-754 comparisons cannot distinguish them).  NaN and
  infinity propagation and all comparisons (every comparison involving
  NaN is false) follow IEEE-754 exactly.
* Unsigned integer representations are modelled on `ℕ`; the checked
  operations of width `w` fail beyond `maxN = 2^w - 1`, mirroring Rust's
  `checked_add`/`checked_sub`/`checked_mul`/`checked_div`.  `usize` is
  taken to be 64 bits wide.
* The `as f64` cast of an unsigned integer is modelled faithfully,
  including round-to-nearest-even for values above `2^53`
  (`roundNatF64`); the `as`-cast from `f64` back to an unsigned integer
  is Rust's saturating, truncating cast with NaN mapped to 0
  (`castToNat`).
-/

/-- IEEE-754-style double values: exact rationals plus the special values. -/
inductive F64 where
  | finite (q : ℚ)
  | inf
  | neginf
  | nan
deriving DecidableEq

/-- `f64::MAX` as an exact rational: `(2^53 - 1) * 2^971`. -/
def M64 : ℚ := (2 ^ 53 - 1) * 2 ^ 971

/-- `f32::MAX` as an exact rational: `(2^24 - 1) * 2^104`. -/
def M32 : ℚ := (2 ^ 24 - 1) * 2 ^ 104

/-- IEEE `<` on doubles: any comparison involving NaN is false. -/
def F64.lt : F64 → F64 → Bool
  | .finite a, .finite b => decide (a < b)
  | .finite _, .inf => true
  | .neginf, .finite _ => true
  | .neginf, .inf => true
  | _, _ => false

/-- IEEE `==` on doubles: NaN is equal to nothing, including itself. -/
def F64.beq : F64 → F64 → Bool
  | .finite a, .finite b => decide (a = b)
  | .inf, .inf => true
  | .neginf, .neginf => true
  | _, _ => false

/-- IEEE `<=` on doubles. -/
def F64.le (a b : F64) : Bool := F64.lt a b || F64.beq a b

/-- IEEE `>` on doubles. -/
def F64.gt (a b : F64) : Bool := F64.lt b a

/-- Pack an exact finite result, overflowing to the infinities past `±M`. -/
def F64.ovf (M : ℚ) (q : ℚ) : F64 :=
  if q > M then .inf else if q < -M then .neginf else .finite q

/-- IEEE negation. -/
def F64.neg : F64 → F64
  | .finite q => .finite (-q)
  | .inf => .neginf
  | .neginf => .inf
  | .nan => .nan

/-- IEEE addition over the model, with overflow bound `M`. -/
def F64.add (M : ℚ) : F64 → F64 → F64
  | .nan, _ => .nan
  | _, .nan => .nan
  | .inf, .neginf => .nan
  | .neginf, .inf => .nan
  | .inf, _ => .inf
  | _, .inf => .inf
  | .neginf, _ => .neginf
  | _, .neginf => .neginf
  | .finite a, .finite b => F64.ovf M (a + b)

/-- IEEE subtraction: addition of the negation. -/
def F64.sub (M : ℚ) (a b : F64) : F64 := F64.add M a (F64.neg b)

/-- IEEE multiplication over the model, with overflow bound `M`. -/
def F64.mul (M : ℚ) : F64 → F64 → F64
  | .nan, _ => .nan
  | _, .nan => .nan
  | .inf, .inf => .inf
  | .inf, .neginf => .neginf
  | .neginf, .inf => .neginf
  | .neginf, .neginf => .inf
  | .inf, .finite b => if b = 0 then .nan else if 0 < b then .inf else .neginf
  | .finite a, .inf => if a = 0 then .nan else if 0 < a then .inf else .neginf
  | .neginf, .finite b => if b = 0 then .nan else if 0 < b then .neginf else .inf
  | .finite a, .neginf => if a = 0 then .nan else if 0 < a then .neginf else .inf
  | .finite a, .finite b => F64.ovf M (a * b)

/-- IEEE division over the model, with overflow bound `M`.  Division of a
nonzero finite value by zero gives a signed infinity (the model has no
`-0.0`, so the zero divisor counts as `+0.0`). -/
def F64.div (M : ℚ) : F64 → F64 → F64
  | .nan, _ => .nan
  | _, .nan => .nan
  | .inf, .inf => .nan
  | .inf, .neginf => .nan
  | .neginf, .inf => .nan
  | .neginf, .neginf => .nan
  | .inf, .finite b => if 0 ≤ b then .inf else .neginf
  | .neginf, .finite b => if 0 ≤ b then .neginf else .inf
  | .finite _, .inf => .finite 0
  | .finite _, .neginf => .finite 0
  | .finite a, .finite b =>
      if b = 0 then (if a = 0 then .nan else if 0 < a then .inf else .neginf)
      else F64.ovf M (a / b)

/-- The `CheckedNumberArithmetics` trait of `src/lib.rs`: per-representation
checked add, sub, mul, div. -/
structure CheckedNumberArithmetics (α : Type) where
  checked_add_mr : α → α → Option α
  checked_sub_mr : α → α → Option α
  checked_mul_mr : α → α → Option α
  checked_div_mr : α → α → Option α

/-- The `CheckedNumberCastsToFloat` trait of `src/lib.rs`: casts from and to
`f64`. -/
structure CheckedNumberCastsToFloat (α : Type) where
  checked_f64_cast : α → Option F64
  checked_cast_back : F64 → Option α

/-- `impl CheckedNumberArithmetics for f32 / f64` (they are textually
identical up to `Self::MAX`), parameterised by the overflow bound `M`:

* `checked_add_mr`: `if Self::MAX - self <= other || Self::MAX - other <= *self
  { None } else { Some(self + other) }`;
* `checked_sub_mr`: always `Some(self - other)`;
* `checked_mul_mr`: `if (*self != 0. || other != 0.) && ((Self::MAX / self) <=
  other && (Self::MAX / other) <= *self) { None } else { Some(self * other) }`;
* `checked_div_mr`: `if other == 0. { None } else { Some(self / other) }`. -/
def floatArith (M : ℚ) : CheckedNumberArithmetics F64 where
  checked_add_mr a b :=
    if (F64.sub M (F64.finite M) a).le b || (F64.sub M (F64.finite M) b).le a
    then none else some (F64.add M a b)
  checked_sub_mr a b := some (F64.sub M a b)
  checked_mul_mr a b :=
    if (!(F64.beq a (F64.finite 0)) || !(F64.beq b (F64.finite 0)))
        && ((F64.div M (F64.finite M) a).le b && (F64.div M (F64.finite M) b).le a)
    then none else some (F64.mul M a b)
  checked_div_mr a b :=
    if F64.beq b (F64.finite 0) then none else some (F64.div M a b)

/-- `impl CheckedNumberArithmetics for f64`. -/
def f64Arith : CheckedNumberArithmetics F64 := floatArith M64

/-- `impl CheckedNumberArithmetics` for an unsigned integer type with maximum
value `maxN` (Rust's `checked_add` / `checked_sub` / `checked_mul` /
`checked_div` on `u8`, ..., `usize`), on the `ℕ`-embedding of its values. -/
def uintArith (maxN : ℕ) : CheckedNumberArithmetics ℕ where
  checked_add_mr a b := if a + b ≤ maxN then some (a + b) else none
  checked_sub_mr a b := if b ≤ a then some (a - b) else none
  checked_mul_mr a b := if a * b ≤ maxN then some (a * b) else none
  checked_div_mr a b := if b = 0 then none else some (a / b)

/-- `MapRange::map_range_uncasted` of `src/lib.rs`, over a representation
given by its `PartialOrd` comparisons `ltb`/`gtb` and its checked
arithmetic `A`:

```
if *self < from_range.0 || *self > from_range.1 { return None; }
let diff_self_from = self.checked_sub_mr(from_range.0)?;
let diff_to = to_range.1.checked_sub_mr(to_range.0)?;
let diff_from = from_range.1.checked_sub_mr(from_range.0)?;
let product = diff_self_from.checked_mul_mr(diff_to)?;
let quotient = product.checked_div_mr(diff_from)?;
to_range.0.checked_add_mr(quotient)
```

Rust's `.0`/`.1` tuple fields are Lean's `.1`/`.2`. -/
def map_range_uncasted {α : Type} (ltb gtb : α → α → Bool)
    (A : CheckedNumberArithmetics α) (value : α)
    (from_range to_range : α × α) : Option α :=
  if ltb value from_range.1 || gtb value from_range.2 then none
  else
    (A.checked_sub_mr value from_range.1).bind fun diff_self_from =>
    (A.checked_sub_mr to_range.2 to_range.1).bind fun diff_to =>
    (A.checked_sub_mr from_range.2 from_range.1).bind fun diff_from =>
    (A.checked_mul_mr diff_self_from diff_to).bind fun product =>
    (A.checked_div_mr product diff_from).bind fun quotient =>
    A.checked_add_mr to_range.1 quotient

/-- `MapRange::map_range` of `src/lib.rs`: cast `value` and the four bounds
to `f64`, delegate to `f64`'s `map_range_uncasted`, cast the result back:

```
let value = self.checked_f64_cast()?;
let from_range = (from_range.0.checked_f64_cast()?, from_range.1.checked_f64_cast()?);
let to_range = (to_range.0.checked_f64_cast()?, to_range.1.checked_f64_cast()?);
let result = value.map_range_uncasted(from_range, to_range)?;
Self::checked_cast_back(result)
``` -/
def map_range {α : Type} (C : CheckedNumberCastsToFloat α) (value : α)
    (from_range to_range : α × α) : Option α :=
  (C.checked_f64_cast value).bind fun v =>
  (C.checked_f64_cast from_range.1).bind fun f0 =>
  (C.checked_f64_cast from_range.2).bind fun f1 =>
  (C.checked_f64_cast to_range.1).bind fun t0 =>
  (C.checked_f64_cast to_range.2).bind fun t1 =>
  (map_range_uncasted F64.lt F64.gt f64Arith v (f0, f1) (t0, t1)).bind fun result =>
  C.checked_cast_back result

/-- The value of `(n : uN) as f64`: exact up to `2^53`, round-to-nearest-even
at 53 significant bits above it (no overflow below `2^1024`, which covers
every value of every supported unsigned width). -/
def roundNatF64 (n : ℕ) : ℚ :=
  if n ≤ 2 ^ 53 then (n : ℚ)
  else
    let s := n.log2 - 52
    let q := n / 2 ^ s
    let r := n % 2 ^ s
    let half := 2 ^ (s - 1)
    let q2 := if half < r ∨ (r = half ∧ q % 2 = 1) then q + 1 else q
    ((q2 * 2 ^ s : ℕ) : ℚ)

/-- Truncation toward zero of an exact rational, as in a Rust float-to-integer
`as` cast. -/
def truncQ (q : ℚ) : ℤ := if q < 0 then Int.ceil q else Int.floor q

/-- The value of `(x : f64) as uN` with maximum value `maxN`: Rust's
saturating, truncating cast, with NaN mapped to 0. -/
def castToNat (maxN : ℕ) : F64 → ℕ
  | .nan => 0
  | .inf => maxN
  | .neginf => 0
  | .finite q => if q < 0 then 0 else min (truncQ q).toNat maxN

/-- `impl CheckedNumberCastsToFloat` for an unsigned integer type with
maximum value `maxN`:

```
fn checked_f64_cast(&self) -> Option<f64> { Some(*self as f64) }
fn checked_cast_back(other: f64) -> Option<Self> {
    if other > Self::MAX as f64 || other < Self::MIN as f64 { return None; }
    Some(other as Self)
}
```

Note the comparison bound is `Self::MAX as f64`, i.e. the rounded double,
and `Self::MIN as f64 = 0`. -/
def uintCasts (maxN : ℕ) : CheckedNumberCastsToFloat ℕ where
  checked_f64_cast n := some (F64.finite (roundNatF64 n))
  checked_cast_back x :=
    if F64.gt x (F64.finite (roundNatF64 maxN)) || F64.lt x (F64.finite (roundNatF64 0))
    then none else some (castToNat maxN x)

/-- `impl CheckedNumberCastsToFloat for f64`: both casts are the identity. -/
def f64Casts : CheckedNumberCastsToFloat F64 where
  checked_f64_cast x := some x
  checked_cast_back x := some x

/-- `u8::map_range_uncasted`, on the `ℕ`-embedding of `u8`. -/
def u8_map_range_uncasted (value : ℕ) (from_range to_range : ℕ × ℕ) : Option ℕ :=
  map_range_uncasted (fun a b => decide (a < b)) (fun a b => decide (b < a))
    (uintArith 255) value from_range to_range

/-- `u8::map_range`, on the `ℕ`-embedding of `u8`. -/
def u8_map_range (value : ℕ) (from_range to_range : ℕ × ℕ) : Option ℕ :=
  map_range (uintCasts 255) value from_range to_range

/-- `usize::map_range` (64-bit `usize`), on the `ℕ`-embedding. -/
def usize_map_range (value : ℕ) (from_range to_range : ℕ × ℕ) : Option ℕ :=
  map_range (uintCasts (2 ^ 64 - 1)) value from_range to_range

/-- `f64::map_range_uncasted`. -/
def f64_map_range_uncasted (value : F64) (from_range to_range : F64 × F64) :
    Option F64 :=
  map_range_uncasted F64.lt F64.gt f64Arith value from_range to_range

/-- `f64::map_range`. -/
def f64_map_range (value : F64) (from_range to_range : F64 × F64) : Option F64 :=
  map_range f64Casts value from_range to_range

/-! ### Basic facts about the `F64` model -/

theorem F64.ovf_eq_inf {M q : ℚ} (h : M < q) : F64.ovf M q = F64.inf := by
  simp [F64.ovf, h]

theorem F64.ovf_eq_neginf {M q : ℚ} (h1 : q < -M) (h2 : ¬ M < q) :
    F64.ovf M q = F64.neginf := by
  simp [F64.ovf, h1, h2]

theorem F64.ovf_eq_finite {M q : ℚ} (h1 : -M ≤ q) (h2 : q ≤ M) :
    F64.ovf M q = F64.finite q := by
  simp [F64.ovf, not_lt.mpr h1, not_lt.mpr h2]

theorem F64.add_finite_finite (M a b : ℚ) :
    F64.add M (F64.finite a) (F64.finite b) = F64.ovf M (a + b) := rfl

theorem F64.sub_finite_finite (M a b : ℚ) :
    F64.sub M (F64.finite a) (F64.finite b) = F64.ovf M (a - b) := by
  show F64.ovf M (a + -b) = F64.ovf M (a - b)
  rw [← sub_eq_add_neg]

theorem F64.mul_finite_finite (M a b : ℚ) :
    F64.mul M (F64.finite a) (F64.finite b) = F64.ovf M (a * b) := rfl

theorem F64.div_finite_finite {M a b : ℚ} (hb : b ≠ 0) :
    F64.div M (F64.finite a) (F64.finite b) = F64.ovf M (a / b) := by
  simp [F64.div, hb]

theorem F64.div_finite_zero_pos {M a : ℚ} (ha : 0 < a) :
    F64.div M (F64.finite a) (F64.finite 0) = F64.inf := by
  simp [F64.div, ha, ne_of_gt ha]

theorem F64.lt_finite_finite (a b : ℚ) :
    F64.lt (F64.finite a) (F64.finite b) = decide (a < b) := rfl

theorem F64.beq_finite_finite (a b : ℚ) :
    F64.beq (F64.finite a) (F64.finite b) = decide (a = b) := rfl

theorem F64.le_finite_finite (a b : ℚ) :
    F64.le (F64.finite a) (F64.finite b) = decide (a ≤ b) := by
  simp [F64.le, F64.lt, F64.beq, le_iff_lt_or_eq]

theorem F64.le_inf_finite (b : ℚ) : F64.le F64.inf (F64.finite b) = false := rfl

theorem F64.le_nan_right (x : F64) : F64.le x F64.nan = false := by
  cases x <;> rfl

theorem F64.le_nan_left (x : F64) : F64.le F64.nan x = false := by
  cases x <;> rfl

theorem F64.gt_eq_lt (a b : F64) : F64.gt a b = F64.lt b a := rfl

theorem F64.mul_nan_left (M : ℚ) (x : F64) : F64.mul M F64.nan x = F64.nan := by
  cases x <;> rfl

theorem F64.div_nan_left (M : ℚ) (x : F64) : F64.div M F64.nan x = F64.nan := by
  cases x <;> rfl

theorem F64.div_finite_nan (M : ℚ) (a : ℚ) :
    F64.div M (F64.finite a) F64.nan = F64.nan := rfl

theorem F64.add_finite_nan (M : ℚ) (a : ℚ) :
    F64.add M (F64.finite a) F64.nan = F64.nan := rfl

theorem F64.sub_nan_left (M : ℚ) (x : F64) : F64.sub M F64.nan x = F64.nan := by
  cases x <;> rfl

theorem F64.sub_finite_nan (M : ℚ) (a : ℚ) :
    F64.sub M (F64.finite a) F64.nan = F64.nan := rfl

/-! ### Characterizations of the checked float operations -/

theorem checked_sub_eq (M : ℚ) (a b : F64) :
    (floatArith M).checked_sub_mr a b = some (F64.sub M a b) := rfl

theorem checked_sub_finite {M : ℚ} (a b : ℚ) (h1 : -M ≤ a - b) (h2 : a - b ≤ M) :
    (floatArith M).checked_sub_mr (F64.finite a) (F64.finite b) =
      some (F64.finite (a - b)) := by
  rw [checked_sub_eq, F64.sub_finite_finite, F64.ovf_eq_finite h1 h2]

theorem checked_div_finite {M : ℚ} (a b : ℚ) (hb : b ≠ 0) :
    (floatArith M).checked_div_mr (F64.finite a) (F64.finite b) =
      some (F64.ovf M (a / b)) := by
  simp [floatArith, F64.beq_finite_finite, hb, F64.div_finite_finite hb]

theorem checked_add_small {M B : ℚ} (a b : ℚ) (hB : 0 < B) (hMB : B + B < M)
    (ha0 : 0 ≤ a) (haB : a ≤ B) (hb1 : -B ≤ b) (hb2 : b ≤ B) :
    (floatArith M).checked_add_mr (F64.finite a) (F64.finite b) =
      some (F64.finite (a + b)) := by
  have hBM : B < M := by linarith
  have hMa : F64.sub M (F64.finite M) (F64.finite a) = F64.finite (M - a) := by
    rw [F64.sub_finite_finite, F64.ovf_eq_finite (by linarith) (by linarith)]
  have h1 : F64.le (F64.finite (M - a)) (F64.finite b) = false := by
    rw [F64.le_finite_finite]
    simp only [decide_eq_false_iff_not, not_le]
    linarith
  have h2 : F64.le (F64.sub M (F64.finite M) (F64.finite b)) (F64.finite a) = false := by
    rw [F64.sub_finite_finite]
    by_cases hb0 : b < 0
    · rw [F64.ovf_eq_inf (by linarith)]
      exact F64.le_inf_finite a
    · rw [F64.ovf_eq_finite (by linarith) (by linarith), F64.le_finite_finite]
      simp only [decide_eq_false_iff_not, not_le]
      linarith
  simp only [floatArith, hMa, h1, h2, Bool.or_self, Bool.false_eq_true, if_false,
    F64.add_finite_finite]
  rw [F64.ovf_eq_finite (by linarith) (by linarith)]

theorem checked_mul_small {M B : ℚ} (a b : ℚ) (hM : 0 < M) (hB : 0 < B)
    (hMB : B * B < M) (ha0 : 0 ≤ a) (haB : a ≤ B) (hb1 : -B ≤ b) (hb2 : b ≤ B) :
    (floatArith M).checked_mul_mr (F64.finite a) (F64.finite b) =
      some (F64.finite (a * b)) := by
  have key : F64.le (F64.div M (F64.finite M) (F64.finite a)) (F64.finite b) = false := by
    by_cases ha : a = 0
    · subst ha
      rw [F64.div_finite_zero_pos hM]
      exact F64.le_inf_finite b
    · have ha' : 0 < a := lt_of_le_of_ne ha0 (Ne.symm ha)
      rw [F64.div_finite_finite ha]
      by_cases hMa : M < M / a
      · rw [F64.ovf_eq_inf hMa]
        exact F64.le_inf_finite b
      · have hd : 0 < M / a := div_pos hM ha'
        rw [F64.ovf_eq_finite (by linarith) (not_lt.mp hMa), F64.le_finite_finite]
        simp only [decide_eq_false_iff_not, not_le]
        rw [lt_div_iff₀ ha']
        nlinarith
  simp only [floatArith, key, Bool.false_and, Bool.and_false, Bool.false_eq_true,
    if_false, F64.mul_finite_finite]
  rw [F64.ovf_eq_finite (by nlinarith) (by nlinarith)]

/-- Evaluation of the checked-arithmetic mapper over the float model when every
operand is bounded by `B` and `B` is far below the overflow bound `M`: no
checked step fails and the result is the exact interpolation formula. -/
theorem uncasted_float_small_eval {M B : ℚ} (v f0 f1 t0 t1 : ℚ) (hB : 0 < B)
    (hM1 : B * B < M) (hM2 : B + B < M)
    (hf0 : 0 ≤ f0) (hf1 : f1 ≤ B) (ht0a : 0 ≤ t0) (ht0b : t0 ≤ B)
    (ht1a : 0 ≤ t1) (ht1b : t1 ≤ B)
    (h1 : f0 ≤ v) (h2 : v ≤ f1) (h3 : f0 < f1) :
    map_range_uncasted F64.lt F64.gt (floatArith M) (F64.finite v)
        (F64.finite f0, F64.finite f1) (F64.finite t0, F64.finite t1) =
      some (F64.finite (t0 + (v - f0) * (t1 - t0) / (f1 - f0))) := by
  have hM : 0 < M := by nlinarith
  have hBM : B < M := by linarith
  have hmem : (F64.lt (F64.finite v) (F64.finite f0)
      || F64.gt (F64.finite v) (F64.finite f1)) = false := by
    rw [F64.gt_eq_lt, F64.lt_finite_finite, F64.lt_finite_finite]
    simp [not_lt.mpr h1, not_lt.mpr h2]
  have hd1 : (floatArith M).checked_sub_mr (F64.finite v) (F64.finite f0) =
      some (F64.finite (v - f0)) :=
    checked_sub_finite v f0 (by linarith) (by linarith)
  have hd2 : (floatArith M).checked_sub_mr (F64.finite t1) (F64.finite t0) =
      some (F64.finite (t1 - t0)) :=
    checked_sub_finite t1 t0 (by linarith) (by linarith)
  have hd3 : (floatArith M).checked_sub_mr (F64.finite f1) (F64.finite f0) =
      some (F64.finite (f1 - f0)) :=
    checked_sub_finite f1 f0 (by linarith) (by linarith)
  have hprod : (floatArith M).checked_mul_mr (F64.finite (v - f0)) (F64.finite (t1 - t0)) =
      some (F64.finite ((v - f0) * (t1 - t0))) :=
    checked_mul_small _ _ hM hB hM1 (by linarith) (by linarith) (by linarith) (by linarith)
  have hd3ne : f1 - f0 ≠ 0 := by linarith
  have hquot : (floatArith M).checked_div_mr (F64.finite ((v - f0) * (t1 - t0)))
      (F64.finite (f1 - f0)) = some (F64.ovf M ((v - f0) * (t1 - t0) / (f1 - f0))) :=
    checked_div_finite _ _ hd3ne
  have hqbound : |(v - f0) * (t1 - t0) / (f1 - f0)| ≤ B := by
    rw [abs_div, abs_mul]
    rw [div_le_iff₀ (by rw [abs_of_pos (by linarith)]; linarith)]
    have hv0 : |v - f0| ≤ |f1 - f0| := by
      rw [abs_of_nonneg (by linarith), abs_of_nonneg (by linarith)]
      linarith
    have ht : |t1 - t0| ≤ B := by
      rw [abs_le]
      constructor <;> linarith
    calc |v - f0| * |t1 - t0| ≤ |f1 - f0| * |t1 - t0| :=
          mul_le_mul_of_nonneg_right hv0 (abs_nonneg _)
      _ = |t1 - t0| * |f1 - f0| := mul_comm _ _
      _ ≤ B * |f1 - f0| := mul_le_mul_of_nonneg_right ht (abs_nonneg _)
  have hq1 : -B ≤ (v - f0) * (t1 - t0) / (f1 - f0) := (abs_le.mp hqbound).1
  have hq2 : (v - f0) * (t1 - t0) / (f1 - f0) ≤ B := (abs_le.mp hqbound).2
  have hovf : F64.ovf M ((v - f0) * (t1 - t0) / (f1 - f0)) =
      F64.finite ((v - f0) * (t1 - t0) / (f1 - f0)) :=
    F64.ovf_eq_finite (by linarith) (by linarith)
  have hres : (floatArith M).checked_add_mr (F64.finite t0)
      (F64.finite ((v - f0) * (t1 - t0) / (f1 - f0))) =
      some (F64.finite (t0 + (v - f0) * (t1 - t0) / (f1 - f0))) :=
    checked_add_small _ _ hB hM2 ht0a ht0b hq1 hq2
  rw [map_range_uncasted, hmem]
  simp only [Bool.false_eq_true, if_false, hd1, Option.some_bind, hd2, hd3, hprod,
    hquot, hovf, hres]

theorem M64_gt : (2097152 : ℚ) < M64 := by norm_num [M64]

theorem M64_pos : (0 : ℚ) < M64 := by linarith [M64_gt]


theorem roundNatF64_small {n : ℕ} (hn : n ≤ 2 ^ 53) : roundNatF64 n = (n : ℚ) := by
  unfold roundNatF64
  rw [if_pos hn]

theorem truncQ_intCast (z : ℤ) : truncQ (z : ℚ) = z := by
  unfold truncQ
  split
  · exact Int.ceil_intCast z
  · exact Int.floor_intCast z

/-- Exact evaluation of `u8::map_range` when the interpolation divides
exactly: with `value` inside a non-degenerate `from_range` and
`(value - f0) * (t1 - t0) = (f1 - f0) * k` over `ℤ`, the result is
`Some(t0 + k)`. -/
theorem u8_map_range_eval (v f0 f1 t0 t1 : ℕ) (k : ℤ)
    (hf1 : f1 ≤ 255) (ht0 : t0 ≤ 255) (ht1 : t1 ≤ 255)
    (h1 : f0 ≤ v) (h2 : v ≤ f1) (h3 : f0 < f1)
    (hk : ((v : ℤ) - f0) * ((t1 : ℤ) - t0) = ((f1 : ℤ) - f0) * k) :
    u8_map_range v (f0, f1) (t0, t1) = some ((t0 + k).toNat) := by
  have hv : v ≤ 255 := le_trans h2 hf1
  have hf0 : f0 ≤ 255 := le_trans h1 hv
  have hsm : ∀ n : ℕ, n ≤ 255 → roundNatF64 n = (n : ℚ) := fun n hn =>
    roundNatF64_small (by omega)
  have hivf0 : (f0 : ℤ) ≤ (v : ℤ) := by exact_mod_cast h1
  have hivf1 : (v : ℤ) ≤ (f1 : ℤ) := by exact_mod_cast h2
  have hif01 : (f0 : ℤ) < (f1 : ℤ) := by exact_mod_cast h3
  have hit0 : (t0 : ℤ) ≤ 255 := by exact_mod_cast ht0
  have hit1 : (t1 : ℤ) ≤ 255 := by exact_mod_cast ht1
  have hit0n : (0 : ℤ) ≤ (t0 : ℤ) := by positivity
  have hit1n : (0 : ℤ) ≤ (t1 : ℤ) := by positivity
  have hkb : ((t0 : ℤ) + k ≤ 255) ∧ (0 ≤ (t0 : ℤ) + k) := by
    rcases le_or_lt (t0 : ℤ) (t1 : ℤ) with hcase | hcase
    · have hk0 : 0 ≤ k := by
        by_contra hneg
        push_neg at hneg
        have hlt : ((f1 : ℤ) - f0) * k < 0 := mul_neg_of_pos_of_neg (by omega) hneg
        have hp : 0 ≤ ((v : ℤ) - f0) * ((t1 : ℤ) - t0) :=
          mul_nonneg (by omega) (by omega)
        rw [hk] at hp
        linarith
      have hk1 : k ≤ (t1 : ℤ) - t0 := by
        by_contra hneg
        push_neg at hneg
        have hlt : ((f1 : ℤ) - f0) * ((t1 : ℤ) - t0) < ((f1 : ℤ) - f0) * k :=
          mul_lt_mul_of_pos_left hneg (by omega)
        rw [← hk] at hlt
        have hmm : ((v : ℤ) - f0) * ((t1 : ℤ) - t0) ≤ ((f1 : ℤ) - f0) * ((t1 : ℤ) - t0) :=
          mul_le_mul_of_nonneg_right (by omega) (by omega)
        linarith
      omega
    · have hk0 : k ≤ 0 := by
        by_contra hneg
        push_neg at hneg
        have hlt : 0 < ((f1 : ℤ) - f0) * k := mul_pos (by omega) hneg
        rw [← hk] at hlt
        have hp : ((v : ℤ) - f0) * ((t1 : ℤ) - t0) ≤ 0 :=
          mul_nonpos_of_nonneg_of_nonpos (by omega) (by omega)
        linarith
      have hk1 : (t1 : ℤ) - t0 ≤ k := by
        by_contra hneg
        push_neg at hneg
        have hlt : ((f1 : ℤ) - f0) * k < ((f1 : ℤ) - f0) * ((t1 : ℤ) - t0) :=
          mul_lt_mul_of_pos_left hneg (by omega)
        rw [← hk] at hlt
        have hmm : ((f1 : ℤ) - f0) * ((t1 : ℤ) - t0) ≤ ((v : ℤ) - f0) * ((t1 : ℤ) - t0) :=
          mul_le_mul_of_nonpos_right (by omega) (by omega)
        linarith
      omega
  have hmain := uncasted_float_small_eval (M := M64) (B := 255)
    (v : ℚ) (f0 : ℚ) (f1 : ℚ) (t0 : ℚ) (t1 : ℚ) (by norm_num)
    (by linarith [M64_gt]) (by linarith [M64_gt])
    (by positivity) (by exact_mod_cast hf1) (by positivity) (by exact_mod_cast ht0)
    (by positivity) (by exact_mod_cast ht1)
    (by exact_mod_cast h1) (by exact_mod_cast h2) (by exact_mod_cast h3)
  have hr : (t0 : ℚ) + ((v : ℚ) - f0) * ((t1 : ℚ) - t0) / ((f1 : ℚ) - f0) =
      (((t0 : ℤ) + k : ℤ) : ℚ) := by
    have hq : ((v : ℚ) - f0) * ((t1 : ℚ) - t0) = ((f1 : ℚ) - f0) * (k : ℚ) := by
      exact_mod_cast congrArg (fun z : ℤ => (z : ℚ)) hk
    have hne : ((f1 : ℚ) - f0) ≠ 0 := by
      have : (f0 : ℚ) < f1 := by exact_mod_cast h3
      linarith
    rw [hq, mul_comm, mul_div_assoc, div_self hne, mul_one]
    push_cast
    ring
  rw [u8_map_range, map_range]
  simp only [uintCasts, Option.some_bind]
  rw [hsm v hv, hsm f0 hf0, hsm f1 hf1, hsm t0 ht0, hsm t1 ht1]
  show (map_range_uncasted F64.lt F64.gt (floatArith M64) _ _ _).bind _ = _
  rw [hmain, Option.some_bind, hr]
  have hub : (((t0 : ℤ) + k : ℤ) : ℚ) ≤ 255 := by exact_mod_cast hkb.1
  have hlb : (0 : ℚ) ≤ (((t0 : ℤ) + k : ℤ) : ℚ) := by exact_mod_cast hkb.2
  rw [hsm 255 (le_refl 255), hsm 0 (by norm_num)]
  rw [F64.gt_eq_lt]
  rw [if_neg (by
    rw [F64.lt_finite_finite, F64.lt_finite_finite]
    simp only [Bool.or_eq_true, decide_eq_true_eq, not_or, not_lt]
    push_cast at hub hlb ⊢
    constructor <;> linarith)]
  rw [castToNat, if_neg (not_lt.mpr hlb), truncQ_intCast]
  have hle : ((t0 : ℤ) + k).toNat ≤ 255 := by omega
  simp [min_eq_left hle]

/-- The float-upcast mapper on `f64` is the checked-arithmetic mapper: both
casts are the identity. -/
theorem f64_map_range_eq (v : F64) (fr tr : F64 × F64) :
    f64_map_range v fr tr = f64_map_range_uncasted v fr tr := by
  unfold f64_map_range map_range f64Casts f64_map_range_uncasted
  simp only [Option.some_bind]
  cases map_range_uncasted F64.lt F64.gt f64Arith v (fr.1, fr.2) (tr.1, tr.2) <;> rfl

/-- A NaN value sails through the checked-arithmetic float mapper: every
comparison against the bounds is false and NaN propagates through every
step, whatever the (distinct) finite source bounds and finite target
bounds are. -/
theorem uncasted_float_nan (M f0 f1 t0 t1 : ℚ) (h : f0 ≠ f1) :
    map_range_uncasted F64.lt F64.gt (floatArith M) F64.nan
      (F64.finite f0, F64.finite f1) (F64.finite t0, F64.finite t1) =
      some F64.nan := by
  rw [map_range_uncasted]
  rw [if_neg (by simp [F64.lt, F64.gt])]
  rw [checked_sub_eq, F64.sub_nan_left, Option.some_bind,
    checked_sub_eq, F64.sub_finite_finite, Option.some_bind,
    checked_sub_eq, F64.sub_finite_finite, Option.some_bind]
  have hmul : (floatArith M).checked_mul_mr F64.nan (F64.ovf M (t1 - t0)) =
      some F64.nan := by
    have hle : F64.le (F64.div M (F64.finite M) F64.nan) (F64.ovf M (t1 - t0)) = false := by
      rw [F64.div_finite_nan]
      exact F64.le_nan_left _
    simp only [floatArith, hle, Bool.false_and, Bool.and_false, Bool.false_eq_true,
      if_false, F64.mul_nan_left]
  rw [hmul, Option.some_bind]
  have hdiv : (floatArith M).checked_div_mr F64.nan (F64.ovf M (f1 - f0)) =
      some F64.nan := by
    have hbeq : F64.beq (F64.ovf M (f1 - f0)) (F64.finite 0) = false := by
      unfold F64.ovf
      split
      · rfl
      · split
        · rfl
        · rw [F64.beq_finite_finite]
          simp only [decide_eq_false_iff_not]
          rw [sub_eq_zero]
          exact fun hh => h hh.symm
    simp only [floatArith, hbeq, Bool.false_eq_true, if_false, F64.div_nan_left]
  rw [hdiv, Option.some_bind]
  have hadd : (floatArith M).checked_add_mr (F64.finite t0) F64.nan = some F64.nan := by
    have h1 : F64.le (F64.sub M (F64.finite M) (F64.finite t0)) F64.nan = false :=
      F64.le_nan_right _
    have h2 : F64.le (F64.sub M (F64.finite M) F64.nan) (F64.finite t0) = false := by
      rw [F64.sub_finite_nan]
      exact F64.le_nan_left _
    simp only [floatArith, h1, h2, Bool.or_self, Bool.false_eq_true, if_false,
      F64.add_finite_nan]
  rw [hadd]

/-- A zero-width source interval with a finite bound always fails in the
checked-arithmetic float mapper: the interval difference is exactly zero and
the checked division rejects the zero divisor, whatever the value and the
target bounds are. -/
theorem uncasted_float_zero_width (M : ℚ) (hM : 0 ≤ M) (v : F64) (q : ℚ)
    (to_range : F64 × F64) :
    map_range_uncasted F64.lt F64.gt (floatArith M) v
      (F64.finite q, F64.finite q) to_range = none := by
  rw [map_range_uncasted]
  split
  · rfl
  · rw [checked_sub_eq, Option.some_bind, checked_sub_eq, Option.some_bind,
      checked_sub_eq, F64.sub_finite_finite, sub_self, F64.ovf_eq_finite (by linarith) hM,
      Option.some_bind]
    cases hprod : (floatArith M).checked_mul_mr (F64.sub M v (F64.finite q))
        (F64.sub M to_range.2 to_range.1) with
    | none => rfl
    | some p =>
        rw [Option.some_bind]
        have : (floatArith M).checked_div_mr p (F64.finite 0) = none := by
          simp [floatArith, F64.beq_finite_finite]
        rw [this]
        rfl

theorem checked_mul_nan_left (M : ℚ) (x : F64) :
    (floatArith M).checked_mul_mr F64.nan x = some F64.nan := by
  have hle : F64.le (F64.div M (F64.finite M) F64.nan) x = false := by
    rw [F64.div_finite_nan]
    exact F64.le_nan_left x
  simp only [floatArith, hle, Bool.false_and, Bool.and_false, Bool.false_eq_true,
    if_false, F64.mul_nan_left]

theorem checked_div_nan_nan (M : ℚ) :
    (floatArith M).checked_div_mr F64.nan F64.nan = some F64.nan := rfl

theorem checked_add_nan_right (M t0 : ℚ) :
    (floatArith M).checked_add_mr (F64.finite t0) F64.nan = some F64.nan := by
  have h1 : F64.le (F64.sub M (F64.finite M) (F64.finite t0)) F64.nan = false :=
    F64.le_nan_right _
  have h2 : F64.le (F64.sub M (F64.finite M) F64.nan) (F64.finite t0) = false := by
    rw [F64.sub_finite_nan]
    exact F64.le_nan_left _
  simp only [floatArith, h1, h2, Bool.or_self, Bool.false_eq_true, if_false,
    F64.add_finite_nan]

theorem F64.sub_inf_inf (M : ℚ) : F64.sub M F64.inf F64.inf = F64.nan := rfl

/-- Source interval `(inf, inf)` with value `inf`: the membership test is
passed (`inf < inf` and `inf > inf` are both false), `inf - inf` is NaN, and
the NaN propagates to a `Some(NaN)` result. -/
theorem uncasted_float_inf_inf (M t0 t1 : ℚ) :
    map_range_uncasted F64.lt F64.gt (floatArith M) F64.inf (F64.inf, F64.inf)
      (F64.finite t0, F64.finite t1) = some F64.nan := by
  rw [map_range_uncasted]
  rw [if_neg (by simp [F64.lt, F64.gt])]
  simp only [checked_sub_eq, F64.sub_inf_inf, F64.sub_finite_finite, Option.some_bind,
    checked_mul_nan_left, checked_div_nan_nan, checked_add_nan_right]

/-- The conservative multiplication check fires on `1 * M` (`M/1 <= M` and
`M/M <= 1` are both true), so mapping `1` from `(0, 1)` onto `(0, M)` fails
even though the exact endpoint image `M` is representable. -/
theorem uncasted_float_endpoint_reject (M : ℚ) (hM : 1 ≤ M) :
    map_range_uncasted F64.lt F64.gt (floatArith M) (F64.finite 1)
      (F64.finite 0, F64.finite 1) (F64.finite 0, F64.finite M) = none := by
  have hM0 : (0 : ℚ) < M := by linarith
  rw [map_range_uncasted]
  rw [if_neg (by simp [F64.lt, F64.gt, F64.lt_finite_finite])]
  have s1 := checked_sub_finite (M := M) 1 0 (by linarith) (by linarith)
  have s2 := checked_sub_finite (M := M) M 0 (by linarith) (by linarith)
  have hmul : (floatArith M).checked_mul_mr (F64.finite (1 - 0)) (F64.finite (M - 0)) =
      none := by
    have e1 : (1 - 0 : ℚ) = 1 := by norm_num
    have e2 : (M - 0 : ℚ) = M := by ring
    rw [e1, e2]
    have hd1 : F64.div M (F64.finite M) (F64.finite 1) = F64.finite M := by
      rw [F64.div_finite_finite (by norm_num : (1:ℚ) ≠ 0)]
      rw [div_one]
      exact F64.ovf_eq_finite (by linarith) (le_refl M)
    have hd2 : F64.div M (F64.finite M) (F64.finite M) = F64.finite 1 := by
      rw [F64.div_finite_finite (by linarith : (M:ℚ) ≠ 0)]
      rw [div_self (by linarith : (M:ℚ) ≠ 0)]
      exact F64.ovf_eq_finite (by linarith) hM
    simp only [floatArith, hd1, hd2, F64.le_finite_finite, F64.beq_finite_finite]
    rw [if_pos]
    simp only [Bool.and_eq_true, Bool.or_eq_true, Bool.not_eq_true', decide_eq_true_eq,
      decide_eq_false_iff_not]
    refine ⟨Or.inl (by norm_num), le_refl M, le_refl 1⟩
  simp only [s1, s2, Option.some_bind, hmul, Option.none_bind]

/-- The floating checked addition accepts any two nonpositive finite
operands: `MAX - a` is at least `MAX`, so neither overflow test can fire. -/
theorem checked_add_float_nonpos {M : ℚ} (a b : ℚ) (hM : 0 < M)
    (ha : a ≤ 0) (hb : b ≤ 0) :
    (floatArith M).checked_add_mr (F64.finite a) (F64.finite b) =
      some (F64.add M (F64.finite a) (F64.finite b)) := by
  have key : ∀ x y : ℚ, x ≤ 0 → y ≤ 0 →
      F64.le (F64.sub M (F64.finite M) (F64.finite x)) (F64.finite y) = false := by
    intro x y hx hy
    rw [F64.sub_finite_finite]
    rcases lt_or_eq_of_le hx with hx' | hx'
    · rw [F64.ovf_eq_inf (by linarith)]
      exact F64.le_inf_finite y
    · rw [hx', sub_zero, F64.ovf_eq_finite (by linarith) (le_refl M), F64.le_finite_finite]
      simp only [decide_eq_false_iff_not, not_le]
      linarith
  simp only [floatArith, key a b ha hb, key b a hb ha, Bool.or_self,
    Bool.false_eq_true, if_false]

/-- `(-MAX) + (-MAX)` passes the overflow test and lands at negative
infinity. -/
theorem checked_add_float_negmax (M : ℚ) (hM : 0 < M) :
    (floatArith M).checked_add_mr (F64.finite (-M)) (F64.finite (-M)) =
      some F64.neginf := by
  rw [checked_add_float_nonpos (-M) (-M) hM (by linarith) (by linarith),
    F64.add_finite_finite, F64.ovf_eq_neginf (by linarith) (by linarith)]

/-- The source-range membership test short-circuits the checked-arithmetic
mapper for any representation. -/
theorem uncasted_reject {α : Type} (ltb gtb : α → α → Bool)
    (A : CheckedNumberArithmetics α) (value : α) (fr tr : α × α)
    (h : (ltb value fr.1 || gtb value fr.2) = true) :
    map_range_uncasted ltb gtb A value fr tr = none := by
  rw [map_range_uncasted, if_pos h]

/-- `u8::map_range` rejects any value outside the source range. -/
theorem u8_map_range_reject (v f0 f1 : ℕ) (tr : ℕ × ℕ)
    (hv : v ≤ 255) (hf0 : f0 ≤ 255) (hf1 : f1 ≤ 255) (h : v < f0 ∨ f1 < v) :
    u8_map_range v (f0, f1) tr = none := by
  unfold u8_map_range map_range
  simp only [uintCasts, Option.some_bind]
  have r1 := roundNatF64_small (n := v) (by omega)
  have r2 := roundNatF64_small (n := f0) (by omega)
  have r3 := roundNatF64_small (n := f1) (by omega)
  rw [r1, r2, r3]
  rw [uncasted_reject _ _ _ _ _ _ (by
    rw [F64.gt_eq_lt, F64.lt_finite_finite, F64.lt_finite_finite]
    simp only [Bool.or_eq_true, decide_eq_true_eq]
    exact_mod_cast h)]
  rfl

/-- `u8::map_range_uncasted` returns `None` whenever the intermediate product
exceeds 255, the `u8` maximum. -/
theorem u8_uncasted_overflow (v f0 f1 t0 t1 : ℕ)
    (hm : 255 < (v - f0) * (t1 - t0)) :
    u8_map_range_uncasted v (f0, f1) (t0, t1) = none := by
  have hd1 : v - f0 ≠ 0 := by
    intro h
    rw [h, zero_mul] at hm
    omega
  have hd2 : t1 - t0 ≠ 0 := by
    intro h
    rw [h, mul_zero] at hm
    omega
  have hv : f0 < v := by omega
  have ht : t0 < t1 := by omega
  unfold u8_map_range_uncasted map_range_uncasted uintArith
  by_cases hf : f1 < v
  · rw [if_pos]
    simp [hf]
  · rw [if_neg (by
      simp only [Bool.or_eq_true, decide_eq_true_eq, not_or]
      omega)]
    simp only [if_pos (le_of_lt hv), if_pos (le_of_lt ht),
      if_pos (by omega : f0 ≤ f1), Option.some_bind]
    rw [if_neg (by omega)]
    rfl

/-- Full evaluation of `u8::map_range_uncasted` when no checked step fails:
the result is `t0 + (v - f0) * (t1 - t0) / (f1 - f0)` in `u8` arithmetic. -/
theorem u8_uncasted_eval (v f0 f1 t0 t1 : ℕ)
    (h1 : f0 ≤ v) (h2 : v ≤ f1) (h3 : f0 < f1) (h4 : t0 ≤ t1)
    (hm : (v - f0) * (t1 - t0) ≤ 255)
    (ha : t0 + (v - f0) * (t1 - t0) / (f1 - f0) ≤ 255) :
    u8_map_range_uncasted v (f0, f1) (t0, t1) =
      some (t0 + (v - f0) * (t1 - t0) / (f1 - f0)) := by
  unfold u8_map_range_uncasted map_range_uncasted uintArith
  rw [if_neg (by
    simp only [Bool.or_eq_true, decide_eq_true_eq, not_or]
    omega)]
  simp only [if_pos h1, if_pos h4, if_pos (le_of_lt h3), Option.some_bind]
  rw [if_pos hm, Option.some_bind]
  rw [if_neg (by omega : ¬ f1 - f0 = 0), Option.some_bind]
  rw [if_pos ha]

/-- An inverted source interval rejects every value of an unsigned integer
representation: the order is total, so `v > f1` whenever `v ≥ f0 > f1`. -/
theorem uint_uncasted_inverted (m v : ℕ) (fr tr : ℕ × ℕ) (h : fr.2 < fr.1) :
    map_range_uncasted (fun a b => decide (a < b)) (fun a b => decide (b < a))
      (uintArith m) v fr tr = none := by
  rw [map_range_uncasted, if_pos]
  simp only [Bool.or_eq_true, decide_eq_true_eq]
  omega

/-- A zero-width source interval makes `u8::map_range` fail for every value
and every target range: the checked division sees a zero divisor. -/
theorem u8_map_range_zero_width (v f0 : ℕ) (tr : ℕ × ℕ) :
    u8_map_range v (f0, f0) tr = none := by
  unfold u8_map_range map_range
  simp only [uintCasts, Option.some_bind, f64Arith]
  rw [uncasted_float_zero_width M64 (le_of_lt M64_pos)]
  rfl

/-- The same, for `f64::map_range` with a finite common bound. -/
theorem f64_map_range_zero_width (v : F64) (q : ℚ) (tr : F64 × F64) :
    f64_map_range v (F64.finite q, F64.finite q) tr = none := by
  rw [f64_map_range_eq]
  unfold f64_map_range_uncasted
  simp only [f64Arith]
  exact uncasted_float_zero_width M64 (le_of_lt M64_pos) v q tr

/-- With `from.0 > from.1` in the IEEE order, any non-NaN value fails the
membership test. -/
theorem lt_or_gt_of_inverted (v f0 f1 : F64) (hv : v ≠ F64.nan)
    (h : F64.gt f0 f1 = true) : (F64.lt v f0 || F64.gt v f1) = true := by
  rw [F64.gt_eq_lt] at h ⊢
  cases v with
  | nan => exact absurd rfl hv
  | inf =>
      cases f1 with
      | finite b => simp [F64.lt]
      | inf => cases f0 <;> simp [F64.lt] at h
      | neginf => simp [F64.lt]
      | nan => cases f0 <;> simp [F64.lt] at h
  | neginf =>
      cases f0 with
      | finite a => simp [F64.lt]
      | inf => simp [F64.lt]
      | neginf => cases f1 <;> simp [F64.lt] at h
      | nan => cases f1 <;> simp [F64.lt] at h
  | finite vq =>
      cases f0 with
      | nan => cases f1 <;> simp [F64.lt] at h
      | neginf => cases f1 <;> simp [F64.lt] at h
      | inf => simp [F64.lt]
      | finite a =>
          cases f1 with
          | inf => simp [F64.lt] at h
          | nan => simp [F64.lt] at h
          | neginf => simp [F64.lt]
          | finite b =>
              simp only [F64.lt, Bool.or_eq_true, decide_eq_true_eq] at h ⊢
              rcases lt_or_le vq a with hc | hc
              · exact Or.inl hc
              · exact Or.inr (lt_of_lt_of_le h hc)


theorem u8_cast_back_none_iff (q : ℚ) :
    ((uintCasts 255).checked_cast_back (F64.finite q) = none) ↔ (255 < q ∨ q < 0) := by
  show (if (F64.gt (F64.finite q) (F64.finite (roundNatF64 255))
      || F64.lt (F64.finite q) (F64.finite (roundNatF64 0))) = true then none
      else some (castToNat 255 (F64.finite q))) = none ↔ _
  rw [roundNatF64_small (by norm_num : (255:ℕ) ≤ 2 ^ 53),
    roundNatF64_small (by norm_num : (0:ℕ) ≤ 2 ^ 53),
    F64.gt_eq_lt, F64.lt_finite_finite, F64.lt_finite_finite]
  push_cast
  by_cases h : 255 < q ∨ q < 0
  · rw [if_pos (by simpa using h)]
    simp [h]
  · rw [if_neg (by simpa using h)]
    simp [h]

theorem u8_cast_back_trunc (q : ℚ) (h0 : 0 ≤ q) (h255 : q ≤ 255) :
    (uintCasts 255).checked_cast_back (F64.finite q) = some (truncQ q).toNat := by
  show (if (F64.gt (F64.finite q) (F64.finite (roundNatF64 255))
      || F64.lt (F64.finite q) (F64.finite (roundNatF64 0))) = true then none
      else some (castToNat 255 (F64.finite q))) = _
  rw [roundNatF64_small (by norm_num : (255:ℕ) ≤ 2 ^ 53),
    roundNatF64_small (by norm_num : (0:ℕ) ≤ 2 ^ 53),
    F64.gt_eq_lt, F64.lt_finite_finite, F64.lt_finite_finite]
  push_cast
  rw [if_neg (by
    simp only [Bool.or_eq_true, decide_eq_true_eq, not_or, not_lt]
    exact ⟨h255, h0⟩)]
  rw [castToNat, if_neg (not_lt.mpr h0)]
  congr 1
  apply min_eq_left
  have hfl : truncQ q = Int.floor q := if_neg (not_lt.mpr h0)
  have hle : Int.floor q ≤ 255 := by
    rw [← Int.lt_add_one_iff, Int.floor_lt]
    push_cast
    linarith
  omega

theorem u8_cast_back_nan : (uintCasts 255).checked_cast_back F64.nan = some 0 := rfl

theorem roundNatF64_usizeMax : roundNatF64 (2 ^ 64 - 1) = (2 : ℚ) ^ 64 := by
  have hlog : Nat.log2 (2 ^ 64 - 1) = 63 := by norm_num [Nat.log2]
  rw [roundNatF64, if_neg (by norm_num)]
  simp only [hlog]
  norm_num


theorem map_range_eval_of {a : Type} (C : CheckedNumberCastsToFloat a)
    (value : a) (fr tr : a × a) (cv c0 c1 d0 d1 : F64) (res : Option a)
    (h1 : C.checked_f64_cast value = some cv)
    (h2 : C.checked_f64_cast fr.1 = some c0)
    (h3 : C.checked_f64_cast fr.2 = some c1)
    (h4 : C.checked_f64_cast tr.1 = some d0)
    (h5 : C.checked_f64_cast tr.2 = some d1)
    (hrest : (map_range_uncasted F64.lt F64.gt f64Arith cv (c0, c1) (d0, d1)).bind
        C.checked_cast_back = res) :
    map_range C value fr tr = res := by
  rw [map_range, h1, Option.some_bind, h2, Option.some_bind, h3, Option.some_bind,
    h4, Option.some_bind, h5, Option.some_bind, hrest]

theorem uintCasts_cast (maxN n : ℕ) :
    (uintCasts maxN).checked_f64_cast n = some (F64.finite (roundNatF64 n)) := rfl

theorem uintCasts_cast_back (maxN : ℕ) (x : F64) :
    (uintCasts maxN).checked_cast_back x =
      if (F64.gt x (F64.finite (roundNatF64 maxN)) || F64.lt x (F64.finite (roundNatF64 0)))
      then none else some (castToNat maxN x) := rfl

theorem usize_map_range_512 : usize_map_range 512 (0, 1024) (0, 255) = some 127 := by
  have r512 := roundNatF64_small (n := 512) (by norm_num)
  have r0 := roundNatF64_small (n := 0) (by norm_num)
  have r1024 := roundNatF64_small (n := 1024) (by norm_num)
  have r255 := roundNatF64_small (n := 255) (by norm_num)
  have hmain := uncasted_float_small_eval (M := M64) (B := 1024)
    ((512 : ℕ) : ℚ) ((0 : ℕ) : ℚ) ((1024 : ℕ) : ℚ) ((0 : ℕ) : ℚ) ((255 : ℕ) : ℚ)
    (by norm_num) (by push_cast [M64]; norm_num) (by push_cast [M64]; norm_num)
    (by push_cast; norm_num) (by push_cast; norm_num) (by push_cast; norm_num)
    (by push_cast; norm_num) (by push_cast; norm_num) (by push_cast; norm_num)
    (by push_cast; norm_num) (by push_cast; norm_num) (by push_cast; norm_num)
  have hr : ((0 : ℕ) : ℚ) + (((512 : ℕ) : ℚ) - ((0 : ℕ) : ℚ)) *
      ((((255 : ℕ) : ℚ)) - ((0 : ℕ) : ℚ)) / (((1024 : ℕ) : ℚ) - ((0 : ℕ) : ℚ)) =
      255 / 2 := by
    push_cast
    norm_num
  apply map_range_eval_of (uintCasts (2 ^ 64 - 1)) 512 (0, 1024) (0, 255)
    (F64.finite ((512 : ℕ) : ℚ)) (F64.finite ((0 : ℕ) : ℚ)) (F64.finite ((1024 : ℕ) : ℚ))
    (F64.finite ((0 : ℕ) : ℚ)) (F64.finite ((255 : ℕ) : ℚ)) (some 127)
  · rw [uintCasts_cast, r512]
  · rw [uintCasts_cast, r0]
  · rw [uintCasts_cast, r1024]
  · rw [uintCasts_cast, r0]
  · rw [uintCasts_cast, r255]
  · show (map_range_uncasted F64.lt F64.gt (floatArith M64) _ _ _).bind _ = _
    rw [hmain, Option.some_bind, hr]
    rw [uintCasts_cast_back, roundNatF64_usizeMax, r0]
    rw [F64.gt_eq_lt, F64.lt_finite_finite, F64.lt_finite_finite]
    rw [if_neg (by push_cast; norm_num)]
    have ht : truncQ (255 / 2 : ℚ) = 127 := by
      rw [truncQ, if_neg (by norm_num)]
      rw [Int.floor_eq_iff]
      constructor <;> norm_num
    rw [castToNat, if_neg (by norm_num), ht]
    rfl

/-- `f64::map_range` maps a NaN value inside distinct finite source bounds to
`Some(NaN)`. -/
theorem f64_map_range_nan (f0 f1 t0 t1 : ℚ) (h : f0 ≠ f1) :
    f64_map_range F64.nan (F64.finite f0, F64.finite f1)
      (F64.finite t0, F64.finite t1) = some F64.nan := by
  rw [f64_map_range_eq]
  unfold f64_map_range_uncasted
  simp only [f64Arith]
  exact uncasted_float_nan M64 f0 f1 t0 t1 h

/-- A zero-width source interval fails in the unsigned checked-arithmetic
mapper: any in-range value equals the common bound, and the checked division
then sees the zero divisor `f0 - f0`. -/
theorem uint_uncasted_zero_width (m v f0 : ℕ) (tr : ℕ × ℕ) :
    map_range_uncasted (fun a b => decide (a < b)) (fun a b => decide (b < a))
      (uintArith m) v (f0, f0) tr = none := by
  rw [map_range_uncasted]
  split
  · rfl
  · rename_i hmem
    simp only [Bool.or_eq_true, decide_eq_true_eq, not_or, not_lt] at hmem
    have hv : v = f0 := le_antisymm hmem.2 hmem.1
    subst hv
    have hd1 : (uintArith m).checked_sub_mr v v = some 0 := by
      unfold uintArith
      simp
    have hd3 : (uintArith m).checked_sub_mr v v = some 0 := hd1
    rw [hd1, Option.some_bind]
    cases hd2 : (uintArith m).checked_sub_mr tr.2 tr.1 with
    | none => rfl
    | some d2 =>
        rw [Option.some_bind]
        have hmul : (uintArith m).checked_mul_mr 0 d2 = some 0 := by
          unfold uintArith
          simp
        rw [hmul, Option.some_bind]
        rfl

/-! ### The claims -/

/-- C1: for in-range values over a non-degenerate source interval, with no
intermediate overflow, the mappers return `Some` of
`t0 + (value - f0) * (t1 - t0) / (f1 - f0)`, exactly when the division is
exact.  Instantiated at the `u8` representation: the first conjunct settles
`map_range` (float-upcast path, divisibility witnessed by `k`), the second
`map_range_uncasted` (native checked `u8` arithmetic, whose no-overflow
conditions are the explicit product and sum bounds). -/
theorem c1_interpolation_formula :
    (∀ (v f0 f1 t0 t1 : ℕ) (k : ℤ), f1 ≤ 255 → t0 ≤ 255 → t1 ≤ 255 →
      f0 ≤ v → v ≤ f1 → f0 < f1 →
      ((v : ℤ) - f0) * ((t1 : ℤ) - t0) = ((f1 : ℤ) - f0) * k →
      u8_map_range v (f0, f1) (t0, t1) = some ((t0 + k).toNat)) ∧
    (∀ v f0 f1 t0 t1 : ℕ, f0 ≤ v → v ≤ f1 → f0 < f1 → t0 ≤ t1 →
      (v - f0) * (t1 - t0) ≤ 255 →
      t0 + (v - f0) * (t1 - t0) / (f1 - f0) ≤ 255 →
      u8_map_range_uncasted v (f0, f1) (t0, t1) =
        some (t0 + (v - f0) * (t1 - t0) / (f1 - f0))) :=
  ⟨u8_map_range_eval, u8_uncasted_eval⟩

theorem c1_witness :
    u8_map_range 5 (0, 10) (10, 20) = some 15 ∧
    u8_map_range_uncasted 5 (0, 10) (10, 20) = some 15 := by
  constructor
  · have h := c1_interpolation_formula.1 5 0 10 10 20 5 (by decide) (by decide)
      (by decide) (by decide) (by decide) (by decide) (by decide)
    simpa using h
  · have h := c1_interpolation_formula.2 5 0 10 10 20 (by decide) (by decide)
      (by decide) (by decide) (by decide) (by decide)
    simpa using h

/-- C2: the mappers are total functions into `Option` (first conjunct: every
call is `none` or `some`), and an intermediate product exceeding the `u8`
maximum 255 forces `map_range_uncasted` to return `None` — the checked
multiplication fails instead of wrapping. -/
theorem c2_overflow_containment :
    (∀ (v : ℕ) (fr tr : ℕ × ℕ),
      u8_map_range v fr tr = none ∨ ∃ r, u8_map_range v fr tr = some r) ∧
    (∀ v f0 f1 t0 t1 : ℕ, 255 < (v - f0) * (t1 - t0) →
      u8_map_range_uncasted v (f0, f1) (t0, t1) = none) := by
  constructor
  · intro v fr tr
    cases h : u8_map_range v fr tr with
    | none => exact Or.inl rfl
    | some r => exact Or.inr ⟨r, rfl⟩
  · exact u8_uncasted_overflow

theorem c2_witness : u8_map_range_uncasted 2 (0, 2) (0, 200) = none :=
  c2_overflow_containment.2 2 0 2 0 200 (by decide)

/-- C3: a value outside the source range is rejected.  The first conjunct is
the generic fact for every representation (the mapper returns `None` as soon
as its membership test `value < from.0 || value > from.1` is true); the
second instantiates it through `u8::map_range`, whose casts preserve the
order. -/
theorem c3_out_of_range_none :
    (∀ (α : Type) (ltb gtb : α → α → Bool) (A : CheckedNumberArithmetics α)
      (value : α) (fr tr : α × α), (ltb value fr.1 || gtb value fr.2) = true →
      map_range_uncasted ltb gtb A value fr tr = none) ∧
    (∀ (v f0 f1 : ℕ) (tr : ℕ × ℕ), v ≤ 255 → f0 ≤ 255 → f1 ≤ 255 →
      v < f0 ∨ f1 < v → u8_map_range v (f0, f1) tr = none) :=
  ⟨fun _ => uncasted_reject, u8_map_range_reject⟩

theorem c3_witness :
    u8_map_range_uncasted 5 (10, 20) (20, 30) = none ∧
    u8_map_range 5 (10, 20) (20, 30) = none := by
  constructor
  · exact c3_out_of_range_none.1 ℕ (fun a b => decide (a < b)) (fun a b => decide (b < a))
      (uintArith 255) 5 (10, 20) (20, 30) (by decide)
  · exact c3_out_of_range_none.2 5 10 20 (20, 30) (by decide) (by decide) (by decide)
      (Or.inl (by decide))

/-- C4 counterexample: with the source interval `(inf, inf)` the claim's
hypothesis `from.1 == from.0` holds (IEEE equality of equal infinities is
true), yet `f64::map_range` at the value `inf` returns `Some(NaN)` rather
than `None`: `inf - inf` is NaN and the NaN propagates through every checked
step. -/
theorem c4_counterexample :
    f64_map_range F64.inf (F64.inf, F64.inf) (F64.finite 0, F64.finite 1) =
      some F64.nan ∧ F64.beq F64.inf F64.inf = true := by
  constructor
  · rw [f64_map_range_eq]
    unfold f64_map_range_uncasted
    simp only [f64Arith]
    exact uncasted_float_inf_inf M64 0 1
  · rfl

/-- C4 (amended): a zero-width source interval with a finite common bound
always yields `None` — the checked division fails on the zero divisor
`f0 - f0` — for `u8::map_range`, `f64::map_range` and
`u8::map_range_uncasted` alike; only equal infinite bounds (where the
subtraction produces NaN instead of zero) escape this. -/
theorem c4_zero_width_none :
    (∀ (v f0 : ℕ) (tr : ℕ × ℕ), u8_map_range v (f0, f0) tr = none) ∧
    (∀ (v : F64) (q : ℚ) (tr : F64 × F64),
      f64_map_range v (F64.finite q, F64.finite q) tr = none) ∧
    (∀ (v f0 : ℕ) (tr : ℕ × ℕ), u8_map_range_uncasted v (f0, f0) tr = none) :=
  ⟨u8_map_range_zero_width, f64_map_range_zero_width, uint_uncasted_zero_width 255⟩

/-- C5 counterexample: the endpoint property fails for `f64` on the valid
non-degenerate pair `from = (0, 1)`, `to = (0, MAX)`: mapping the endpoint
`1` triggers the conservative multiplication check (`MAX/1 <= MAX` and
`MAX/MAX <= 1` both hold), so `map_range` returns `None`, not
`Some(to.1)`. -/
theorem c5_counterexample :
    f64_map_range (F64.finite 1) (F64.finite 0, F64.finite 1)
      (F64.finite 0, F64.finite M64) = none := by
  rw [f64_map_range_eq]
  unfold f64_map_range_uncasted
  simp only [f64Arith]
  exact uncasted_float_endpoint_reject M64 (by linarith [M64_gt])

/-- C5 (amended): the endpoint property holds whenever no conservative
overflow check fires; in particular for `u8::map_range` it holds for every
non-degenerate source interval and every target interval:
`map_range(from.0) = Some(to.0)` and `map_range(from.1) = Some(to.1)`. -/
theorem c5_endpoints :
    ∀ f0 f1 t0 t1 : ℕ, f1 ≤ 255 → t0 ≤ 255 → t1 ≤ 255 → f0 < f1 →
      u8_map_range f0 (f0, f1) (t0, t1) = some t0 ∧
      u8_map_range f1 (f0, f1) (t0, t1) = some t1 := by
  intro f0 f1 t0 t1 hf1 ht0 ht1 h3
  constructor
  · have h := u8_map_range_eval f0 f0 f1 t0 t1 0 hf1 ht0 ht1 (le_refl f0)
      (le_of_lt h3) h3 (by ring)
    simpa using h
  · have h := u8_map_range_eval f1 f0 f1 t0 t1 ((t1 : ℤ) - t0) hf1 ht0 ht1
      (le_of_lt h3) (le_refl f1) h3 (by ring)
    have ht : ((t0 : ℤ) + ((t1 : ℤ) - t0)).toNat = t1 := by omega
    rw [h, ht]

theorem c5_witness :
    u8_map_range 0 (0, 10) (3, 9) = some 3 ∧ u8_map_range 10 (0, 10) (3, 9) = some 9 := by
  have h := c5_endpoints 0 10 3 9 (by decide) (by decide) (by decide) (by decide)
  exact ⟨h.1, h.2⟩

/-- C6 counterexample: a NaN double does not lie in `[0, 255]` (both IEEE
comparisons against the bounds are false), yet `u8`'s cast back does not
fail on it: the guard `other > 255.0 || other < 0.0` is false for NaN, and
the saturating cast maps NaN to `Some(0)` — so the cast back does not fail
exactly on doubles outside `[R::MIN, R::MAX]`. -/
theorem c6_counterexample :
    (uintCasts 255).checked_cast_back F64.nan = some 0 ∧
    F64.le (F64.finite 0) F64.nan = false ∧ F64.le F64.nan (F64.finite 255) = false :=
  ⟨rfl, rfl, rfl⟩

/-- C6 (amended): on non-NaN finite doubles, `u8`'s cast back fails exactly
when the value lies outside `[0, 255]`, and otherwise truncates toward zero;
a NaN input is accepted and cast to `Some(0)`; and
`512usize.map_range((0,1024),(0,255))` is `Some(127)`, the truncation of the
double result `127.5`. -/
theorem c6_cast_back :
    (∀ q : ℚ, ((uintCasts 255).checked_cast_back (F64.finite q) = none) ↔
      (255 < q ∨ q < 0)) ∧
    (∀ q : ℚ, 0 ≤ q → q ≤ 255 →
      (uintCasts 255).checked_cast_back (F64.finite q) = some (truncQ q).toNat) ∧
    ((uintCasts 255).checked_cast_back F64.nan = some 0) ∧
    usize_map_range 512 (0, 1024) (0, 255) = some 127 :=
  ⟨u8_cast_back_none_iff, u8_cast_back_trunc, u8_cast_back_nan, usize_map_range_512⟩

theorem c6_witness :
    (uintCasts 255).checked_cast_back (F64.finite (255 / 2)) = some 127 := by
  have h := c6_cast_back.2.1 (255 / 2) (by norm_num) (by norm_num)
  rw [h]
  have ht : truncQ (255 / 2 : ℚ) = 127 := by
    rw [truncQ, if_neg (by norm_num)]
    rw [Int.floor_eq_iff]
    constructor <;> norm_num
  rw [ht]
  rfl

/-- C7: for the `f64` representation both casts are the identity, so
`map_range` and `map_range_uncasted` agree on every input. -/
theorem c7_f64_refinement :
    ∀ (v : F64) (fr tr : F64 × F64),
      f64_map_range v fr tr = f64_map_range_uncasted v fr tr :=
  f64_map_range_eq

/-- C8 counterexample: with the inverted source interval `(1, 0)` the claim
predicts `None` for every value, but the NaN value passes the membership
test (`NaN < 1` and `NaN > 0` are both false) and `f64::map_range` returns
`Some(NaN)`. -/
theorem c8_counterexample :
    f64_map_range F64.nan (F64.finite 1, F64.finite 0) (F64.finite 0, F64.finite 1) =
      some F64.nan ∧ F64.gt (F64.finite 1) (F64.finite 0) = true := by
  constructor
  · exact f64_map_range_nan 1 0 0 1 (by norm_num)
  · decide

/-- C8 (amended): an inverted source interval `from.0 > from.1` rejects
every value of an unsigned integer representation (total order), and every
non-NaN double; a NaN value is the one exception. -/
theorem c8_inverted_interval :
    (∀ (m v : ℕ) (fr tr : ℕ × ℕ), fr.2 < fr.1 →
      map_range_uncasted (fun a b => decide (a < b)) (fun a b => decide (b < a))
        (uintArith m) v fr tr = none) ∧
    (∀ (v f0 f1 : ℕ) (tr : ℕ × ℕ), v ≤ 255 → f0 ≤ 255 → f1 ≤ 255 → f1 < f0 →
      u8_map_range v (f0, f1) tr = none) ∧
    (∀ (v f0 f1 : F64) (tr : F64 × F64), v ≠ F64.nan → F64.gt f0 f1 = true →
      f64_map_range v (f0, f1) tr = none) := by
  refine ⟨uint_uncasted_inverted, ?_, ?_⟩
  · intro v f0 f1 tr hv hf0 hf1 h
    exact u8_map_range_reject v f0 f1 tr hv hf0 hf1 (by omega)
  · intro v f0 f1 tr hv h
    rw [f64_map_range_eq]
    exact uncasted_reject _ _ _ _ _ _ (lt_or_gt_of_inverted v f0 f1 hv h)

theorem c8_witness :
    u8_map_range_uncasted 5 (20, 10) (0, 100) = none ∧
    u8_map_range 5 (20, 10) (0, 100) = none ∧
    f64_map_range (F64.finite 5) (F64.finite 20, F64.finite 10)
      (F64.finite 0, F64.finite 100) = none := by
  refine ⟨?_, ?_, ?_⟩
  · exact c8_inverted_interval.1 255 5 (20, 10) (0, 100) (by decide)
  · exact c8_inverted_interval.2.1 5 20 10 (0, 100) (by decide) (by decide) (by decide)
      (by decide)
  · exact c8_inverted_interval.2.2 (F64.finite 5) (F64.finite 20) (F64.finite 10)
      (F64.finite 0, F64.finite 100) (by decide) (by decide)

/-- C9: a NaN value is not rejected by the source-range membership test: for
finite bounds with `from.0 < from.1`, `f64::map_range` on NaN returns
`Some(NaN)` — every comparison of NaN against the bounds and the overflow
thresholds is false, and NaN propagates through each checked step. -/
theorem c9_nan_not_rejected :
    ∀ f0 f1 t0 t1 : ℚ, f0 < f1 →
      f64_map_range F64.nan (F64.finite f0, F64.finite f1)
        (F64.finite t0, F64.finite t1) = some F64.nan :=
  fun f0 f1 t0 t1 h => f64_map_range_nan f0 f1 t0 t1 (ne_of_lt h)

theorem c9_witness :
    f64_map_range F64.nan (F64.finite 0, F64.finite 1)
      (F64.finite 5, F64.finite 7) = some F64.nan :=
  c9_nan_not_rejected 0 1 5 7 (by norm_num)

/-- C10: the floating checked addition never fails on nonpositive operands
(it only tests overflow past `+MAX`), and `(-MAX) + (-MAX)` returns
`Some(-inf)` for the `f64` and `f32` overflow bounds alike: negative
overflow never produces the absence result. -/
theorem c10_negative_overflow_accepted :
    (∀ M a b : ℚ, 0 < M → a ≤ 0 → b ≤ 0 →
      (floatArith M).checked_add_mr (F64.finite a) (F64.finite b) ≠ none) ∧
    (floatArith M64).checked_add_mr (F64.finite (-M64)) (F64.finite (-M64)) =
      some F64.neginf ∧
    (floatArith M32).checked_add_mr (F64.finite (-M32)) (F64.finite (-M32)) =
      some F64.neginf := by
  refine ⟨?_, ?_, ?_⟩
  · intro M a b hM ha hb
    rw [checked_add_float_nonpos a b hM ha hb]
    exact Option.some_ne_none _
  · exact checked_add_float_negmax M64 M64_pos
  · exact checked_add_float_negmax M32 (by norm_num [M32])

theorem c10_witness :
    (floatArith 1).checked_add_mr (F64.finite 0) (F64.finite 0) ≠ none :=
  c10_negative_overflow_accepted.1 1 0 0 (by norm_num) (le_refl 0) (le_refl 0)
